import Mathlib

/-
Verification of the dubix-stt streaming speech-to-text server
(session lifecycle and voice-activity-driven finalization pipeline).

The development shallowly embeds the core of the server:
  * `calcRMS`        — the RMS loudness detector (source: `calcRMS`);
  * `applyChunk`     — the per-chunk session update (source: the stream POST handler,
                       the branch on `rms > 0.02`);
  * `handleStream`   — the full ingest handler including the silence-timeout
                       check and the synchronous call into the finalizer;
  * `finalizeStep`   — `finalizeAndTranscribe`: atomic session removal,
                       empty-audio early return, provider call, transcript
                       write, 5000 ms expiry timer, scratch-file release;
  * `handleFinalize` — the finalize GET handler;
  * `handleTranscript` — the transcript GET handler;
  * `fireTimers`     — the event-loop firing of due `setTimeout` deletions.

Machine numbers are embedded as exact arithmetic: byte values as `Nat`,
decoded signed 16-bit samples as `Int`, the accumulated active-audio
duration and the RMS mean square as `ℚ`, and the final square root over `ℝ`.
The JavaScript NaN result of Math.sqrt(0/0) on an empty sample array is
embedded as `none`; comparisons against NaN are false, which the boolean
classifier `isActive` reflects by requiring a nonempty sample array.
-/

namespace Dubix

/-- Decoding of one unsigned 16-bit little-endian word into the signed
sample an `Int16Array` element denotes. -/
def s16 (u : Nat) : Int := if u < 32768 then (u : Int) else (u : Int) - 65536

/-- View of a byte buffer as the array of complete signed 16-bit
little-endian samples, as `new Int16Array(buffer, off, byteLength / 2)`
produces it: a trailing odd byte is dropped (the length operand
`byteLength / 2` is truncated by `ToIndex`). -/
def toSamples : List Nat → List Int
  | b0 :: b1 :: rest => s16 (b0 + 256 * b1) :: toSamples rest
  | _ => []

/-- Normalized square of one sample, `(samples[i] / 32768) ** 2`. -/
def sq16 (s : Int) : ℚ := ((s : ℚ) / 32768) ^ 2

/-- Sum of normalized squared samples, the `sumSq` accumulator of `calcRMS`. -/
def sumSq (l : List Int) : ℚ := (l.map sq16).sum

/-- Embedding of `calcRMS`: `Math.sqrt(sumSq / samples.length)`.
With zero samples JavaScript computes `0 / 0 = NaN` and `Math.sqrt(NaN) = NaN`,
embedded as `none`; otherwise the real square root of the mean square. -/
noncomputable def calcRMS (buf : List Nat) : Option ℝ :=
  if (toSamples buf).length = 0 then none
  else some (Real.sqrt (((sumSq (toSamples buf) / (toSamples buf).length : ℚ) : ℝ)))

/-- Boolean form of the classification `rms > 0.02` used by the stream
handler. Since `Real.sqrt` is monotone, `sqrt (m) > 0.02` is equivalent to
`m > 0.0004 = 1/2500` for the nonnegative mean square `m`, and the NaN
case (no samples) compares false; `isActive_iff_calcRMS` below proves this
boolean agrees with the comparison on `calcRMS`. -/
def isActive (buf : List Nat) : Bool :=
  decide ((toSamples buf).length ≠ 0 ∧
    (1 / 2500 : ℚ) < sumSq (toSamples buf) / (toSamples buf).length)

theorem toSamples_length : ∀ l : List Nat, (toSamples l).length = l.length / 2
  | [] => by simp [toSamples]
  | [_] => by simp [toSamples]
  | _ :: _ :: rest => by
      simp only [toSamples, List.length_cons, toSamples_length rest]
      omega

theorem toSamples_dropLast :
    ∀ l : List Nat, l.length % 2 = 1 → toSamples l = toSamples l.dropLast
  | [], h => by simp at h
  | [_], _ => by simp [toSamples]
  | [_, _], h => by simp at h
  | b0 :: b1 :: c :: cs, h => by
      have h2 : (c :: cs).length % 2 = 1 := by simp at h ⊢; omega
      have hd : (b0 :: b1 :: c :: cs).dropLast = b0 :: b1 :: (c :: cs).dropLast := by simp
      rw [hd]
      simp only [toSamples]
      rw [toSamples_dropLast (c :: cs) h2]

theorem toSamples_bound : ∀ l : List Nat, (∀ x ∈ l, x < 256) →
    ∀ s ∈ toSamples l, -32768 ≤ s ∧ s ≤ 32767
  | [], _ => by simp [toSamples]
  | [_], _ => by simp [toSamples]
  | b0 :: b1 :: rest, hb => by
      intro s hs
      simp only [toSamples, List.mem_cons] at hs
      rcases hs with rfl | hs
      · have h0 : b0 < 256 := hb b0 (by simp)
        have h1 : b1 < 256 := hb b1 (by simp)
        unfold s16
        split <;> omega
      · exact toSamples_bound rest (fun x hx => hb x (by simp [hx])) s hs

theorem toSamples_zero : ∀ l : List Nat, (∀ x ∈ l, x = 0) → ∀ s ∈ toSamples l, s = 0
  | [], _ => by simp [toSamples]
  | [_], _ => by simp [toSamples]
  | b0 :: b1 :: rest, hb => by
      intro s hs
      simp only [toSamples, List.mem_cons] at hs
      rcases hs with rfl | hs
      · have h0 : b0 = 0 := hb b0 (by simp)
        have h1 : b1 = 0 := hb b1 (by simp)
        subst h0; subst h1
        simp [s16]
      · exact toSamples_zero rest (fun x hx => hb x (by simp [hx])) s hs

theorem sumSq_nonneg (l : List Int) : 0 ≤ sumSq l := by
  induction l with
  | nil => simp [sumSq]
  | cons a t ih =>
      simp only [sumSq, List.map_cons, List.sum_cons] at ih ⊢
      have : 0 ≤ sq16 a := by unfold sq16; positivity
      linarith

theorem sumSq_le_length (l : List Int) (h : ∀ s ∈ l, -32768 ≤ s ∧ s ≤ 32767) :
    sumSq l ≤ l.length := by
  induction l with
  | nil => simp [sumSq]
  | cons a t ih =>
      have ha := h a (by simp)
      have h1 : sq16 a ≤ 1 := by
        unfold sq16
        rw [div_pow, div_le_one (by norm_num)]
        have hl : (-32768 : ℚ) ≤ (a : ℚ) := by exact_mod_cast ha.1
        have hr : (a : ℚ) ≤ 32767 := by exact_mod_cast ha.2
        nlinarith
      have h2 := ih (fun s hs => h s (by simp [hs]))
      simp only [sumSq, List.map_cons, List.sum_cons, List.length_cons] at h2 ⊢
      push_cast
      linarith

theorem sumSq_eq_zero (l : List Int) (h : ∀ s ∈ l, s = 0) : sumSq l = 0 := by
  induction l with
  | nil => simp [sumSq]
  | cons a t ih =>
      have ha := h a (by simp)
      have h2 := ih (fun s hs => h s (by simp [hs]))
      simp only [sumSq, List.map_cons, List.sum_cons] at h2 ⊢
      rw [ha, h2, sq16]
      norm_num

theorem isActive_iff_calcRMS (buf : List Nat) :
    isActive buf = true ↔ ∃ r : ℝ, calcRMS buf = some r ∧ (1 / 50 : ℝ) < r := by
  unfold isActive calcRMS
  by_cases h : (toSamples buf).length = 0
  · simp [h]
  · simp only [h, if_false, decide_eq_true_eq, ne_eq, not_false_iff, true_and,
      Option.some.injEq]
    have hcast : ((1 / 2500 : ℚ) : ℝ) = (1 / 50 : ℝ) ^ 2 := by norm_num
    constructor
    · intro hlt
      refine ⟨_, rfl, ?_⟩
      rw [(Real.lt_sqrt (by norm_num : (0 : ℝ) ≤ 1 / 50))]
      rw [← hcast]
      exact_mod_cast hlt
    · rintro ⟨r, hr, hlt⟩
      rw [← hr] at hlt
      rw [(Real.lt_sqrt (by norm_num : (0 : ℝ) ≤ 1 / 50)), ← hcast] at hlt
      exact_mod_cast hlt

/-- C8: a chunk of odd byte length is handled by truncation — the final
incomplete sample is dropped, and the RMS loudness is computed over the
remaining complete 16-bit samples, exactly as for the truncated buffer;
no error is raised (the embedding is a total function). -/
theorem c8_odd_chunk_truncated (l : List Nat) (h : l.length % 2 = 1) :
    calcRMS l = calcRMS l.dropLast := by
  unfold calcRMS
  rw [toSamples_dropLast l h]

theorem c8_odd_chunk_truncated_witness :
    ([0, 64, 7] : List Nat).length % 2 = 1 ∧
      calcRMS [0, 64, 7] = calcRMS (([0, 64, 7] : List Nat).dropLast) :=
  ⟨by decide, c8_odd_chunk_truncated [0, 64, 7] (by decide)⟩

/-- C9 counterexample: on the empty buffer the code divides 0 by 0 and takes
`Math.sqrt(NaN)`, returning NaN (embedded `none`) — not a loudness value in
[0, 1] as the claim states for "every buffer ... (including the empty
buffer)". -/
theorem c9_counterexample : calcRMS [] = none := by
  simp [calcRMS, toSamples]

/-- C9 (amended): for every nonempty 16-bit-aligned byte buffer the
Activity Detector returns a loudness value in [0, 1], and a nonempty
buffer of all-zero samples yields exactly 0; the empty buffer is excluded,
since there the code yields NaN (`none`). -/
theorem c9_rms_bounds_amended (l : List Nat) (hne : l ≠ []) (hal : l.length % 2 = 0)
    (hb : ∀ b ∈ l, b < 256) :
    ∃ r : ℝ, calcRMS l = some r ∧ 0 ≤ r ∧ r ≤ 1 ∧ ((∀ b ∈ l, b = 0) → r = 0) := by
  have hlen : (toSamples l).length ≠ 0 := by
    rw [toSamples_length]
    rcases l with _ | ⟨a, t⟩
    · exact absurd rfl hne
    · simp at hal ⊢
      omega
  have hq1 : sumSq (toSamples l) / (toSamples l).length ≤ 1 := by
    rw [div_le_one (by positivity : (0 : ℚ) < ((toSamples l).length : ℚ))]
    exact sumSq_le_length _ (toSamples_bound l hb)
  refine ⟨_, by rw [calcRMS, if_neg hlen], Real.sqrt_nonneg _, ?_, ?_⟩
  · exact Real.sqrt_le_one.mpr (by exact_mod_cast hq1)
  · intro hz
    have h0 : sumSq (toSamples l) = 0 := sumSq_eq_zero _ (toSamples_zero l hz)
    rw [h0]
    norm_num

theorem c9_rms_bounds_amended_witness :
    ∃ r : ℝ, calcRMS [0, 0] = some r ∧ 0 ≤ r ∧ r ≤ 1 ∧
      ((∀ b ∈ ([0, 0] : List Nat), b = 0) → r = 0) :=
  c9_rms_bounds_amended [0, 0] (by decide) (by decide) (by decide)

/-- Per-session state, the object stored in the `sessions` map on first
contact: `{ audio: [], lastHeard: Date.now(), startedTalking: false,
rmsActiveTime: 0, sampleRate }`. -/
structure Session where
  audio : List (List Nat)
  lastHeard : Nat
  startedTalking : Bool
  rmsActiveTime : ℚ
  sampleRate : Nat
deriving DecidableEq

/-- Whole-process state: the two in-memory maps `sessions` and
`transcripts`, the deletions scheduled by `setTimeout(..., 5000)` (each a
pair of the captured session id and its firing time), and a count of
scratch files currently written but not yet unlinked. -/
structure ServerState where
  sessions : List (String × Session)
  transcripts : List (String × String)
  timers : List (String × Nat)
  tmpOpen : Nat
deriving DecidableEq

/-- Association-list reading, `Map.get`. -/
def lookupA {α : Type} (k : String) : List (String × α) → Option α
  | [] => none
  | p :: ps => if p.1 = k then some p.2 else lookupA k ps

/-- Association-list removal, `Map.delete`. -/
def eraseA {α : Type} (k : String) (m : List (String × α)) : List (String × α) :=
  m.filter (fun p => decide (p.1 ≠ k))

/-- Association-list writing, `Map.set` (replaces any previous binding). -/
def setA {α : Type} (k : String) (v : α) (m : List (String × α)) : List (String × α) :=
  (k, v) :: eraseA k m

/-- Ids whose scheduled transcript deletion is due at time `now`. -/
def dueIds (now : Nat) (timers : List (String × Nat)) : List String :=
  (timers.filter (fun p => decide (p.2 ≤ now))).map Prod.fst

/-- Event-loop semantics of the scheduled `transcripts.delete(id)` callbacks:
before a request handler observes the state at time `now`, every timer whose
firing time has passed deletes the transcript entry of its captured id. -/
def fireTimers (now : Nat) (st : ServerState) : ServerState :=
  { st with
    transcripts := st.transcripts.filter (fun p => decide (p.1 ∉ dueIds now st.timers)),
    timers := st.timers.filter (fun p => decide (now < p.2)) }

/-- Session object created on the first chunk of an id. -/
def freshSession (now rate : Nat) : Session :=
  { audio := [], lastHeard := now, startedTalking := false, rmsActiveTime := 0,
    sampleRate := rate }

/-- Per-chunk session mutation of the stream handler (the branch on
`rms > 0.02`): an active chunk is appended, refreshes `lastHeard`, sets
`startedTalking` and adds `chunk.length / (sampleRate * 2) * 1000` ms of
active-audio time (with the declared rate of the request, not of the session);
a silence chunk is appended and refreshes `lastHeard` only while
`!startedTalking || rmsActiveTime < 2000`, and is otherwise discarded. -/
def applyChunk (s : Session) (rate : Nat) (c : List Nat) (now : Nat) : Session :=
  if isActive c then
    { s with lastHeard := now, audio := s.audio ++ [c], startedTalking := true,
             rmsActiveTime := s.rmsActiveTime + (c.length : ℚ) / ((rate : ℚ) * 2) * 1000 }
  else if s.startedTalking = false ∨ s.rmsActiveTime < 2000 then
    { s with audio := s.audio ++ [c], lastHeard := now }
  else s

/-- Outcome of the interaction of one finalization with the transcription
provider: `err` when the `fetch` or the parsing of its response throws;
`ok ex` when it succeeds with `ex` the optional string found at
`json?.results?.channels?.[0]?.alternatives?.[0]?.transcript`. -/
inductive DG where
  | err
  | ok (extracted : Option String)
deriving DecidableEq

/-- Extraction default (or-else empty): a missing transcript field degrades to the
empty string. -/
def extractText (ex : Option String) : String := ex.getD ""

/-- Embedding of `finalizeAndTranscribe(id)`: look the session up and
return if absent; delete it from the store; return if its audio list is
empty; write the scratch file; on provider success write the extracted
text into `transcripts` and schedule its deletion 5000 ms later, on
provider error write nothing; in all cases unlink the scratch file. -/
def finalizeStep (id : String) (out : DG) (now : Nat) (st : ServerState) : ServerState :=
  match lookupA id st.sessions with
  | none => st
  | some s =>
    let st1 : ServerState := { st with sessions := eraseA id st.sessions }
    if s.audio.isEmpty then st1
    else
      let st2 : ServerState := { st1 with tmpOpen := st1.tmpOpen + 1 }
      let st3 : ServerState :=
        match out with
        | DG.err => st2
        | DG.ok ex =>
            { st2 with transcripts := setA id (extractText ex) st2.transcripts,
                       timers := st2.timers ++ [(id, now + 5000)] }
      { st3 with tmpOpen := st3.tmpOpen - 1 }

/-- Configuration surface: the silence timeout `SILENCE_MS` in
milliseconds (default 1200). -/
structure Cfg where
  silenceMs : Nat
deriving DecidableEq

/-- Embedding of the stream POST handler: create the session if absent,
update it through `applyChunk`, then run the silence-timeout check
`session.startedTalking && now - session.lastHeard > SILENCE_MS` on the
updated session and synchronously finalize when it passes. The returned
boolean records whether the check triggered finalize. -/
def handleStream (cfg : Cfg) (id : String) (rate : Nat) (c : List Nat) (now : Nat)
    (out : DG) (st : ServerState) : ServerState × Bool :=
  let st0 := fireTimers now st
  let s := (lookupA id st0.sessions).getD (freshSession now rate)
  let s2 := applyChunk s rate c now
  let st1 : ServerState := { st0 with sessions := setA id s2 st0.sessions }
  if s2.startedTalking = true ∧ (now : ℤ) - (s2.lastHeard : ℤ) > (cfg.silenceMs : ℤ)
  then (finalizeStep id out now st1, true)
  else (st1, false)

/-- Embedding of the finalize GET handler: a missing session yields a 404
(`false`); otherwise `finalizeAndTranscribe` runs (`true`). -/
def handleFinalize (id : String) (now : Nat) (out : DG) (st : ServerState) :
    ServerState × Bool :=
  let st0 := fireTimers now st
  if (lookupA id st0.sessions).isSome then (finalizeStep id out now st0, true)
  else (st0, false)

/-- Embedding of the transcript GET handler: the code answers
not-ready with empty text when the lookup is falsy — that is, both when
no entry exists and when the stored text is the empty string — and
`{ transcript, ready: true }` otherwise. -/
def handleTranscript (id : String) (now : Nat) (st : ServerState) :
    (String × Bool) × ServerState :=
  let st0 := fireTimers now st
  match lookupA id st0.transcripts with
  | none => (("", false), st0)
  | some t => if t = "" then (("", false), st0) else ((t, true), st0)

/-- Boundary events of the core: chunk ingest, manual finalize, transcript
read, each carrying its arrival time and, where a provider call may
happen, the outcome of the provider. -/
inductive Ev where
  | stream (id : String) (rate : Nat) (chunk : List Nat) (now : Nat) (out : DG)
  | fin (id : String) (now : Nat) (out : DG)
  | read (id : String) (now : Nat)
deriving DecidableEq

/-- State transition of one boundary event. -/
def stepEv (cfg : Cfg) (e : Ev) (st : ServerState) : ServerState :=
  match e with
  | Ev.stream id rate c now out => (handleStream cfg id rate c now out st).1
  | Ev.fin id now out => (handleFinalize id now out st).1
  | Ev.read id now => (handleTranscript id now st).2

/-- Running a sequence of boundary events. -/
def run (cfg : Cfg) : List Ev → ServerState → ServerState
  | [], st => st
  | e :: es, st => run cfg es (stepEv cfg e st)

/-- Server state at process start: empty maps, no pending timers, no
scratch files. -/
def init : ServerState := { sessions := [], transcripts := [], timers := [], tmpOpen := 0 }

/-- One ingest-chunk call directed at a fixed session id: arrival time,
declared sample rate, payload, and the provider outcome used if this
chunk triggers finalize. -/
structure SEv where
  now : Nat
  rate : Nat
  chunk : List Nat
  out : DG
deriving DecidableEq

/-- Running a sequence of ingest-chunk calls on one session id, recording
whether any of them triggered the silence-timeout finalize. -/
def runStream (cfg : Cfg) (id : String) : List SEv → ServerState → ServerState × Bool
  | [], st => (st, false)
  | e :: es, st =>
      let r := handleStream cfg id e.rate e.chunk e.now e.out st
      let r2 := runStream cfg id es r.1
      (r2.1, r.2 || r2.2)

/-- Predicate of the C1 hypothesis: the session of `id`, when present, has
accumulated strictly less than 2000 ms of active audio. -/
def rmsBelow (id : String) (st : ServerState) : Bool :=
  match lookupA id st.sessions with
  | none => true
  | some s => decide (s.rmsActiveTime < 2000)

theorem lookupA_setA_self {α : Type} (k : String) (v : α) (m : List (String × α)) :
    lookupA k (setA k v m) = some v := by
  simp [setA, lookupA]

theorem lookupA_eraseA {α : Type} (j k : String) (m : List (String × α)) :
    lookupA j (eraseA k m) = if j = k then none else lookupA j m := by
  induction m with
  | nil => simp [eraseA, lookupA]
  | cons p ps ih =>
      simp only [eraseA, List.filter_cons] at ih ⊢
      by_cases hp : p.1 = k
      · have hd : (decide (p.1 ≠ k)) = false := by simp [hp]
        rw [hd]
        simp only [Bool.false_eq_true, if_false]
        rw [ih]
        by_cases hj : j = k
        · simp [hj]
        · have hpj : ¬ p.1 = j := by rw [hp]; exact fun h => hj h.symm
          simp [hj, lookupA, hpj]
      · have hd : (decide (p.1 ≠ k)) = true := by simp [hp]
        rw [hd]
        simp only [if_true]
        by_cases hpj : p.1 = j
        · have hj : ¬ j = k := by rw [← hpj]; exact hp
          simp [lookupA, hpj, hj]
        · simp only [lookupA, hpj, if_false]
          rw [ih]

theorem lookupA_mem {α : Type} {k : String} {v : α} {m : List (String × α)} :
    lookupA k m = some v → (k, v) ∈ m := by
  induction m with
  | nil => simp [lookupA]
  | cons p ps ih =>
      obtain ⟨a, b⟩ := p
      simp only [lookupA]
      split
      · rename_i h
        intro hv
        injection hv with hv
        subst h
        subst hv
        exact List.mem_cons_self _ _
      · intro hv
        exact List.mem_cons_of_mem _ (ih hv)

theorem mem_eraseA {α : Type} {k : String} {p : String × α} {m : List (String × α)} :
    p ∈ eraseA k m → p ∈ m := by
  intro h
  exact List.mem_of_mem_filter h

theorem lookupA_filter_pred {α : Type} (j : String) (q : String → Bool)
    (m : List (String × α)) :
    lookupA j (m.filter (fun p => q p.1)) = if q j then lookupA j m else none := by
  induction m with
  | nil => simp [lookupA]
  | cons p ps ih =>
      simp only [List.filter_cons]
      by_cases hpj : p.1 = j
      · rw [hpj]
        cases hq : q j
        · simp only [Bool.false_eq_true, if_false]
          rw [ih, hq]
          simp
        · simp only [if_true]
          simp [lookupA, hpj, hq]
      · cases hq : q p.1
        · simp only [Bool.false_eq_true, if_false]
          rw [ih]
          simp [lookupA, hpj]
        · simp only [if_true, lookupA, hpj, if_false]
          rw [ih]

theorem fireTimers_sessions (now : Nat) (st : ServerState) :
    (fireTimers now st).sessions = st.sessions := rfl

/-- Key step fact behind C1: whenever the session of `id` holds less than
2000 ms of active audio (or does not exist), an ingest call cannot trigger
the silence-timeout finalize, because every branch that applies in that
regime refreshes `lastHeard` to `now`, making `now - lastHeard = 0`; the
discarding branch, the only one that leaves `lastHeard` stale, requires
`startedTalking && rmsActiveTime >= 2000`. -/
theorem stream_no_trigger (cfg : Cfg) (id : String) (rate : Nat) (c : List Nat)
    (now : Nat) (out : DG) (st : ServerState) (h : rmsBelow id st = true) :
    (handleStream cfg id rate c now out st).2 = false ∧
      lookupA id (handleStream cfg id rate c now out st).1.sessions =
        some (applyChunk ((lookupA id st.sessions).getD (freshSession now rate)) rate c now) := by
  simp only [handleStream, fireTimers_sessions]
  set s := (lookupA id st.sessions).getD (freshSession now rate) with hs
  set s2 := applyChunk s rate c now with hs2
  have hcond : ¬ (s2.startedTalking = true ∧ (now : ℤ) - (s2.lastHeard : ℤ) > (cfg.silenceMs : ℤ)) := by
    unfold applyChunk at hs2
    by_cases hact : isActive c = true
    · rw [if_pos hact] at hs2
      rintro ⟨-, habs⟩
      rw [hs2] at habs
      simp at habs
      omega
    · rw [if_neg hact] at hs2
      by_cases hkeep : s.startedTalking = false ∨ s.rmsActiveTime < 2000
      · rw [if_pos hkeep] at hs2
        rintro ⟨-, habs⟩
        rw [hs2] at habs
        simp at habs
        omega
      · push_neg at hkeep
        obtain ⟨hst, hrm⟩ := hkeep
        cases hlk : lookupA id st.sessions with
        | none =>
            rw [hlk] at hs
            simp [Option.getD, freshSession] at hs
            rw [hs] at hst
            simp at hst
        | some sv =>
            unfold rmsBelow at h
            rw [hlk] at h hs
            simp at h hs
            rw [hs] at hrm
            exact absurd h (by simpa using hrm)
  rw [if_neg hcond]
  exact ⟨rfl, lookupA_setA_self id s2 st.sessions⟩

/-- C1: along any sequence of ingest-chunk calls on a single session id in
which the accumulated active-audio time `rmsActiveTime` of the session stays
below 2000 ms, the silence-timeout check never triggers finalize — no
matter how much time elapses between chunks — and the session is still in
the store afterwards (so only a manual finalize can drain it). -/
theorem c1_no_warmup_no_auto_finalize (cfg : Cfg) (id : String) (evs : List SEv)
    (st : ServerState)
    (H : ∀ n, n ≤ evs.length → rmsBelow id (runStream cfg id (evs.take n) st).1 = true) :
    (runStream cfg id evs st).2 = false ∧
      (evs ≠ [] → (lookupA id (runStream cfg id evs st).1.sessions).isSome = true) := by
  induction evs generalizing st with
  | nil => exact ⟨rfl, fun h => absurd rfl h⟩
  | cons e es ih =>
      have h0 : rmsBelow id st = true := by
        have h00 := H 0 (by omega)
        simpa [runStream] using h00
      have hstep := stream_no_trigger cfg id e.rate e.chunk e.now e.out st h0
      have hrun : runStream cfg id (e :: es) st =
          ((runStream cfg id es (handleStream cfg id e.rate e.chunk e.now e.out st).1).1,
           (handleStream cfg id e.rate e.chunk e.now e.out st).2 ||
             (runStream cfg id es (handleStream cfg id e.rate e.chunk e.now e.out st).1).2) := rfl
      have H2 : ∀ n, n ≤ es.length →
          rmsBelow id (runStream cfg id (es.take n)
            (handleStream cfg id e.rate e.chunk e.now e.out st).1).1 = true := by
        intro n hn
        have hh := H (n + 1) (by simpa using hn)
        simpa [List.take_succ_cons, runStream] using hh
      have ihr := ih _ H2
      constructor
      · rw [hrun]
        simp [hstep.1, ihr.1]
      · intro hne
        rcases es with _ | ⟨e2, es2⟩
        · rw [hrun]
          simp only [runStream]
          rw [hstep.2]
          rfl
        · exact ihr.2 (by simp)

theorem c1_no_warmup_no_auto_finalize_witness :
    (runStream ⟨1200⟩ "s"
        [⟨0, 16000, [0, 64], DG.err⟩, ⟨10000, 16000, [1, 0], DG.err⟩] init).2 = false ∧
      (([⟨0, 16000, [0, 64], DG.err⟩, ⟨10000, 16000, [1, 0], DG.err⟩] : List SEv) ≠ [] →
        (lookupA "s" (runStream ⟨1200⟩ "s"
          [⟨0, 16000, [0, 64], DG.err⟩, ⟨10000, 16000, [1, 0], DG.err⟩] init).1.sessions).isSome = true) :=
  c1_no_warmup_no_auto_finalize ⟨1200⟩ "s" _ init (by
    intro n hn
    simp only [List.length_cons, List.length_nil] at hn
    interval_cases n <;>
      norm_num [runStream, handleStream, fireTimers, dueIds, lookupA, setA, eraseA,
        applyChunk, isActive, toSamples, s16, sq16, sumSq, freshSession, finalizeStep,
        extractText, rmsBelow, init])

theorem lookupA_setA {α : Type} (j k : String) (v : α) (m : List (String × α)) :
    lookupA j (setA k v m) = if j = k then some v else lookupA j m := by
  simp only [setA, lookupA]
  rw [lookupA_eraseA]
  by_cases h : j = k
  · simp [h]
  · have h2 : ¬ k = j := fun hh => h hh.symm
    simp [h, h2]

theorem finalizeStep_sessions (i : String) (out : DG) (now : Nat) (st : ServerState) :
    (finalizeStep i out now st).sessions = st.sessions ∨
    (finalizeStep i out now st).sessions = eraseA i st.sessions := by
  unfold finalizeStep
  cases lookupA i st.sessions with
  | none => left; rfl
  | some s =>
      simp only
      split
      · right; rfl
      · cases out with
        | err => right; rfl
        | ok ex => right; rfl

theorem finalizeStep_lookup {i : String} {out : DG} {now : Nat} {st : ServerState}
    {j : String} {s : Session}
    (h : lookupA j (finalizeStep i out now st).sessions = some s) :
    lookupA j st.sessions = some s := by
  rcases finalizeStep_sessions i out now st with he | he <;> rw [he] at h
  · exact h
  · rw [lookupA_eraseA] at h
    by_cases hj : j = i
    · rw [if_pos hj] at h
      exact absurd h (by simp)
    · rwa [if_neg hj] at h

theorem handleStream_lookup {cfg : Cfg} {i : String} {rate : Nat} {c : List Nat}
    {now : Nat} {out : DG} {st : ServerState} {j : String} {s : Session}
    (h : lookupA j (handleStream cfg i rate c now out st).1.sessions = some s) :
    s = applyChunk ((lookupA i st.sessions).getD (freshSession now rate)) rate c now ∨
      lookupA j st.sessions = some s := by
  simp only [handleStream, fireTimers_sessions] at h
  set s2 := applyChunk ((lookupA i st.sessions).getD (freshSession now rate)) rate c now with hs2
  by_cases hc : ((applyChunk ((lookupA i st.sessions).getD (freshSession now rate)) rate c now).startedTalking = true ∧
      (now : ℤ) - ((applyChunk ((lookupA i st.sessions).getD (freshSession now rate)) rate c now).lastHeard : ℤ) > (cfg.silenceMs : ℤ))
  · rw [if_pos hc] at h
    simp only at h
    have h2 := finalizeStep_lookup h
    rw [lookupA_setA] at h2
    by_cases hj : j = i
    · rw [if_pos hj] at h2
      left
      injection h2 with h2
      exact h2.symm
    · right
      rwa [if_neg hj] at h2
  · rw [if_neg hc] at h
    simp only at h
    rw [lookupA_setA] at h
    by_cases hj : j = i
    · rw [if_pos hj] at h
      left
      injection h with h2
      exact h2.symm
    · right
      rwa [if_neg hj] at h

theorem isActive_pos_length {c : List Nat} (h : isActive c = true) : 0 < c.length := by
  unfold isActive at h
  simp only [decide_eq_true_eq] at h
  have h2 := h.1
  rw [toSamples_length] at h2
  omega

/-- Invariant tying the `startedTalking` flag to the accumulated
active-audio duration: the flag of every stored session is set exactly
when at least one active chunk has been counted. -/
def sessionRmsInv (st : ServerState) : Prop :=
  ∀ j s, lookupA j st.sessions = some s →
    0 ≤ s.rmsActiveTime ∧ (s.startedTalking = true ↔ 0 < s.rmsActiveTime)

theorem applyChunk_inv {s : Session} {rate : Nat} {c : List Nat} {now : Nat}
    (hrate : 0 < rate)
    (hs : 0 ≤ s.rmsActiveTime ∧ (s.startedTalking = true ↔ 0 < s.rmsActiveTime)) :
    0 ≤ (applyChunk s rate c now).rmsActiveTime ∧
      ((applyChunk s rate c now).startedTalking = true ↔
        0 < (applyChunk s rate c now).rmsActiveTime) := by
  unfold applyChunk
  by_cases hact : isActive c = true
  · rw [if_pos hact]
    simp only
    have hlen : 0 < c.length := isActive_pos_length hact
    have h1 : (0 : ℚ) < (c.length : ℚ) := by exact_mod_cast hlen
    have h2 : (0 : ℚ) < (rate : ℚ) * 2 := by
      have : (0 : ℚ) < (rate : ℚ) := by exact_mod_cast hrate
      linarith
    have hd : 0 < (c.length : ℚ) / ((rate : ℚ) * 2) * 1000 := by
      have := div_pos h1 h2
      linarith
    refine ⟨by linarith [hs.1], ?_, ?_⟩
    · intro _
      linarith [hs.1]
    · intro _
      trivial
  · rw [if_neg hact]
    split
    · simpa using hs
    · exact hs

theorem stream_preserves_inv {cfg : Cfg} {i : String} {rate : Nat} {c : List Nat}
    {now : Nat} {out : DG} {st : ServerState} (hrate : 0 < rate)
    (h : sessionRmsInv st) :
    sessionRmsInv (handleStream cfg i rate c now out st).1 := by
  intro j s hs
  rcases handleStream_lookup hs with rfl | hlk
  · apply applyChunk_inv hrate
    cases hlk2 : lookupA i st.sessions with
    | none => simp [Option.getD, freshSession]
    | some sv => simpa [Option.getD] using h i sv hlk2
  · exact h j s hlk

theorem runStream_preserves_inv (cfg : Cfg) (i : String) :
    ∀ (evs : List SEv) (st : ServerState), (∀ e ∈ evs, 0 < e.rate) →
      sessionRmsInv st → sessionRmsInv (runStream cfg i evs st).1
  | [], _, _, h => h
  | e :: es, st, hr, h =>
      runStream_preserves_inv cfg i es _
        (fun x hx => hr x (by simp [hx]))
        (stream_preserves_inv (hr e (by simp)) h)

/-- C3 counterexample: a single 2-byte loud chunk (sample 16384, RMS 0.5)
sets `startedTalking` immediately, while `rmsActiveTime` is 1/16 ms — far
below the 2000 ms warm-up threshold. The flag is therefore not equivalent
to having crossed 2000 ms, refuting the claim at this concrete input. -/
theorem c3_counterexample :
    (lookupA "s" (runStream ⟨1200⟩ "s" [⟨0, 16000, [0, 64], DG.err⟩] init).1.sessions).map
      (fun s => (s.startedTalking, decide (2000 ≤ s.rmsActiveTime))) = some (true, false) := by
  norm_num [runStream, handleStream, fireTimers, dueIds, lookupA, setA, eraseA,
    applyChunk, isActive, toSamples, s16, sq16, sumSq, freshSession, init]

/-- C3 (amended): along any ingest trace with positive declared sample
rates, the `startedTalking` flag of the stored session is true exactly
when its accumulated active-audio duration is positive — that is, once at
least one chunk was classified active (`rms > 0.02`), not once the 2000 ms
warm-up threshold is crossed. -/
theorem c3_startedTalking_amended (cfg : Cfg) (i : String) (evs : List SEv)
    (hr : ∀ e ∈ evs, 0 < e.rate) (s : Session)
    (hs : lookupA i (runStream cfg i evs init).1.sessions = some s) :
    s.startedTalking = true ↔ 0 < s.rmsActiveTime := by
  have hinit : sessionRmsInv init := by
    intro j sv hj
    simp [init, lookupA] at hj
  exact (runStream_preserves_inv cfg i evs init hr hinit i s hs).2

/-- Session stored after one loud 2-byte chunk at rate 16000. -/
def c3Sess : Session :=
  { audio := [[0, 64]], lastHeard := 0, startedTalking := true,
    rmsActiveTime := 1 / 16, sampleRate := 16000 }

theorem c3_startedTalking_amended_witness :
    c3Sess.startedTalking = true ↔ 0 < c3Sess.rmsActiveTime :=
  c3_startedTalking_amended ⟨1200⟩ "s" [⟨0, 16000, [0, 64], DG.err⟩]
    (by intro e he; simp at he; subst he; norm_num) c3Sess
    (by norm_num [runStream, handleStream, fireTimers, dueIds, lookupA, setA, eraseA,
      applyChunk, isActive, toSamples, s16, sq16, sumSq, freshSession, init, c3Sess])

/-- C5: handling of a silence-classified chunk (`rms <= 0.02`) on an
existing session: while the session has not reached `startedTalking` or
holds less than 2000 ms of active audio, the chunk is appended and
`lastHeard` refreshed to `now`; otherwise the chunk is discarded and the
session record — audio, `lastHeard`, `rmsActiveTime`, `startedTalking`,
`sampleRate` — is left entirely unchanged. -/
theorem c5_silence_chunk (s : Session) (rate : Nat) (c : List Nat) (now : Nat)
    (hsil : isActive c = false) :
    ((s.startedTalking = false ∨ s.rmsActiveTime < 2000) →
      applyChunk s rate c now = { s with audio := s.audio ++ [c], lastHeard := now }) ∧
    (s.startedTalking = true ∧ 2000 ≤ s.rmsActiveTime →
      applyChunk s rate c now = s) := by
  unfold applyChunk
  rw [if_neg (by simp [hsil])]
  constructor
  · intro h
    rw [if_pos h]
  · rintro ⟨h1, h2⟩
    have hno : ¬ (s.startedTalking = false ∨ s.rmsActiveTime < 2000) := by
      push_neg
      exact ⟨by simp [h1], by linarith⟩
    rw [if_neg hno]

/-- Session past warm-up, used to exercise the discarding branch. -/
def c5Sess : Session :=
  { audio := [[1, 0]], lastHeard := 5, startedTalking := true,
    rmsActiveTime := 2000, sampleRate := 16000 }

theorem c5_silence_chunk_witness :
    ((c5Sess.startedTalking = false ∨ c5Sess.rmsActiveTime < 2000) →
      applyChunk c5Sess 16000 [1, 0] 99 =
        { c5Sess with audio := c5Sess.audio ++ [[1, 0]], lastHeard := 99 }) ∧
    (c5Sess.startedTalking = true ∧ 2000 ≤ c5Sess.rmsActiveTime →
      applyChunk c5Sess 16000 [1, 0] 99 = c5Sess) :=
  c5_silence_chunk c5Sess 16000 [1, 0] 99
    (by norm_num [isActive, toSamples, s16, sq16, sumSq])

/-- C7: when the provider call (or the parsing of its response) throws
during a finalize that reached the provider step, the error is caught:
the whole effect of finalize is to remove the session — the transcript
map and the timer list are untouched, the session is not re-inserted,
the scratch-file count returns to its prior value (write then unlink),
and the embedding returns normally (no exception escapes). -/
theorem c7_provider_error_caught (i : String) (now : Nat) (st : ServerState) (s : Session)
    (hs : lookupA i st.sessions = some s) (ha : s.audio ≠ []) :
    finalizeStep i DG.err now st = { st with sessions := eraseA i st.sessions } := by
  unfold finalizeStep
  rw [hs]
  simp only
  rw [if_neg (by simpa [List.isEmpty_iff] using ha)]
  simp only [Nat.add_sub_cancel]

/-- Session with buffered audio for the C7 witness. -/
def c7Sess : Session :=
  { audio := [[1, 0]], lastHeard := 5, startedTalking := true,
    rmsActiveTime := 2500, sampleRate := 16000 }

/-- State holding one session plus unrelated transcript and timer entries. -/
def c7State : ServerState :=
  { sessions := [("s", c7Sess)], transcripts := [("x", "t")], timers := [("x", 9)],
    tmpOpen := 0 }

theorem c7_provider_error_caught_witness :
    finalizeStep "s" DG.err 5 c7State = { c7State with sessions := eraseA "s" c7State.sessions } :=
  c7_provider_error_caught "s" 5 c7State c7Sess (by norm_num [c7State, lookupA])
    (by norm_num [c7Sess])

theorem finalizeStep_lookup_self {i : String} {out : DG} {now : Nat} {st : ServerState}
    (h : (lookupA i st.sessions).isSome = true) :
    lookupA i (finalizeStep i out now st).sessions = none := by
  unfold finalizeStep
  cases hl : lookupA i st.sessions with
  | none => rw [hl] at h; simp at h
  | some s =>
      simp only
      split
      · rw [lookupA_eraseA]
        simp
      · cases out with
        | err =>
            simp only
            rw [lookupA_eraseA]
            simp
        | ok ex =>
            simp only
            rw [lookupA_eraseA]
            simp

theorem fireTimers_noDue {now : Nat} {st : ServerState}
    (h : st.timers.all (fun p => decide (now < p.2)) = true) :
    fireTimers now st = st := by
  obtain ⟨se, tr, ti, tm⟩ := st
  simp only [List.all_eq_true, decide_eq_true_eq] at h
  have hti : ti.filter (fun p => decide (now < p.2)) = ti :=
    List.filter_eq_self.mpr (fun p hp => by simpa using h p hp)
  have hfil : ti.filter (fun p => decide (p.2 ≤ now)) = [] := by
    rw [List.filter_eq_nil_iff]
    intro p hp
    have h2 := h p hp
    simp only [decide_eq_true_eq]
    omega
  have hdue : dueIds now ti = [] := by
    unfold dueIds
    rw [hfil]
    rfl
  unfold fireTimers
  simp only [hdue]
  rw [hti]
  have htr : tr.filter (fun p => decide (p.1 ∉ ([] : List String))) = tr :=
    List.filter_eq_self.mpr (fun p hp => by simp)
  rw [htr]

/-- C6: manual finalize is idempotent. When a session exists, the first
call removes it from the session store — for every provider outcome, so
the removal precedes and does not depend on provider I/O — and a second
call with no intervening chunk (no timer due between the calls) finds no
session, answers not-found, and leaves the whole state unchanged, so
exactly the first call can write a transcript. -/
theorem c6_finalize_idempotent (i : String) (t1 t2 : Nat) (o1 o2 : DG) (st : ServerState)
    (hs : (lookupA i (fireTimers t1 st).sessions).isSome = true)
    (hnd : ((handleFinalize i t1 o1 st).1.timers).all (fun p => decide (t2 < p.2)) = true) :
    (handleFinalize i t1 o1 st).2 = true ∧
      lookupA i (handleFinalize i t1 o1 st).1.sessions = none ∧
      handleFinalize i t2 o2 (handleFinalize i t1 o1 st).1 =
        ((handleFinalize i t1 o1 st).1, false) := by
  have h1 : handleFinalize i t1 o1 st = (finalizeStep i o1 t1 (fireTimers t1 st), true) := by
    unfold handleFinalize
    simp only [hs]
    rfl
  have hlk : lookupA i (handleFinalize i t1 o1 st).1.sessions = none := by
    rw [h1]
    exact finalizeStep_lookup_self hs
  have key : ∀ stX : ServerState, stX.timers.all (fun p => decide (t2 < p.2)) = true →
      lookupA i stX.sessions = none → handleFinalize i t2 o2 stX = (stX, false) := by
    intro stX hX hX2
    simp only [handleFinalize]
    rw [fireTimers_noDue hX, hX2]
    simp
  exact ⟨by rw [h1], hlk, key _ hnd hlk⟩

/-- Session with buffered audio for the C6 witness. -/
def c6Sess : Session :=
  { audio := [[1]], lastHeard := 0, startedTalking := false,
    rmsActiveTime := 0, sampleRate := 16000 }

/-- State holding exactly one session and nothing else. -/
def c6State : ServerState :=
  { sessions := [("s", c6Sess)], transcripts := [], timers := [], tmpOpen := 0 }

theorem c6_finalize_idempotent_witness :
    (handleFinalize "s" 10 (DG.ok (some "x")) c6State).2 = true ∧
      lookupA "s" (handleFinalize "s" 10 (DG.ok (some "x")) c6State).1.sessions = none ∧
      handleFinalize "s" 11 DG.err (handleFinalize "s" 10 (DG.ok (some "x")) c6State).1 =
        ((handleFinalize "s" 10 (DG.ok (some "x")) c6State).1, false) :=
  c6_finalize_idempotent "s" 10 11 (DG.ok (some "x")) DG.err c6State
    (by norm_num [c6State, c6Sess, fireTimers, dueIds, lookupA])
    (by norm_num [c6State, c6Sess, handleFinalize, finalizeStep, fireTimers, dueIds,
      lookupA, setA, eraseA, extractText])

theorem handleTranscript_sessions (i : String) (now : Nat) (st : ServerState) :
    (handleTranscript i now st).2.sessions = st.sessions := by
  unfold handleTranscript
  cases hlk : lookupA i (fireTimers now st).transcripts with
  | none =>
      simp only [hlk]
      rfl
  | some t =>
      simp only [hlk]
      split <;> rfl

theorem finalizeStep_mem {i : String} {out : DG} {now : Nat} {st : ServerState}
    {p : String × Session} (h : p ∈ (finalizeStep i out now st).sessions) :
    p ∈ st.sessions := by
  rcases finalizeStep_sessions i out now st with he | he <;> rw [he] at h
  · exact h
  · exact mem_eraseA h

theorem handleStream_mem {cfg : Cfg} {i : String} {rate : Nat} {c : List Nat}
    {now : Nat} {out : DG} {st : ServerState} {p : String × Session}
    (h : p ∈ (handleStream cfg i rate c now out st).1.sessions) :
    p = (i, applyChunk ((lookupA i st.sessions).getD (freshSession now rate)) rate c now) ∨
      p ∈ st.sessions := by
  simp only [handleStream, fireTimers_sessions] at h
  set s2 := applyChunk ((lookupA i st.sessions).getD (freshSession now rate)) rate c now with hs2
  have hset : p ∈ setA i s2 st.sessions → p = (i, s2) ∨ p ∈ st.sessions := by
    intro hm
    rcases List.mem_cons.mp hm with hm | hm
    · exact Or.inl hm
    · exact Or.inr (mem_eraseA hm)
  split at h
  · exact hset (finalizeStep_mem h)
  · exact hset h

theorem applyChunk_nonempty {s : Session} {rate : Nat} {c : List Nat} {now : Nat}
    (h : s.audio ≠ [] ∨ s.startedTalking = false) :
    (applyChunk s rate c now).audio ≠ [] := by
  unfold applyChunk
  by_cases hact : isActive c = true
  · rw [if_pos hact]
    simp
  · rw [if_neg hact]
    by_cases hkeep : s.startedTalking = false ∨ s.rmsActiveTime < 2000
    · rw [if_pos hkeep]
      simp
    · rw [if_neg hkeep]
      push_neg at hkeep
      rcases h with h | h
      · exact h
      · exact absurd h (by simpa using hkeep.1)

theorem stepEv_nonempty {cfg : Cfg} {e : Ev} {st : ServerState}
    (h : ∀ p ∈ st.sessions, p.2.audio ≠ []) :
    ∀ p ∈ (stepEv cfg e st).sessions, p.2.audio ≠ [] := by
  intro p hp
  cases e with
  | read i now =>
      rw [stepEv, handleTranscript_sessions] at hp
      exact h p hp
  | fin i now out =>
      simp only [stepEv, handleFinalize] at hp
      split at hp
      · simp only at hp
        rcases finalizeStep_sessions i out now (fireTimers now st) with he | he <;>
          rw [he] at hp
        · exact h p hp
        · exact h p (mem_eraseA hp)
      · exact h p hp
  | stream i rate c now out =>
      rcases handleStream_mem hp with rfl | hm
      · simp only
        apply applyChunk_nonempty
        cases hlk : lookupA i st.sessions with
        | none => right; simp [Option.getD, freshSession]
        | some sv =>
            left
            simpa [Option.getD] using h (i, sv) (lookupA_mem hlk)
      · exact h p hm

/-- C10: in every state reachable from process start through any sequence
of boundary events, every stored session has a nonempty audio list — the
creating chunk is always appended (a fresh session has `startedTalking`
false, so even a silence chunk is retained), chunks are only ever
appended, and sessions are only removed whole — hence the empty-audio
early return of finalize is unreachable for sessions created via ingest. -/
theorem c10_sessions_nonempty_audio (cfg : Cfg) (evs : List Ev) :
    ∀ p ∈ (run cfg evs init).sessions, p.2.audio ≠ [] := by
  have key : ∀ (l : List Ev) (st : ServerState), (∀ p ∈ st.sessions, p.2.audio ≠ []) →
      ∀ p ∈ (run cfg l st).sessions, p.2.audio ≠ [] := by
    intro l
    induction l with
    | nil => intro st h; exact h
    | cons e es ih => intro st h; exact ih _ (stepEv_nonempty h)
  exact key evs init (by intro p hp; simp [init] at hp)

/-- Session stored after one loud 2-byte chunk, for the C10 witness. -/
def c10Sess : Session :=
  { audio := [[0, 64]], lastHeard := 0, startedTalking := true,
    rmsActiveTime := 1 / 16, sampleRate := 16000 }

theorem c10_sessions_nonempty_audio_witness :
    ("s", c10Sess) ∈ (run ⟨1200⟩ [Ev.stream "s" 16000 [0, 64] 0 DG.err] init).sessions ∧
      c10Sess.audio ≠ [] :=
  ⟨by norm_num [run, stepEv, handleStream, fireTimers, dueIds, lookupA, setA, eraseA,
      applyChunk, isActive, toSamples, s16, sq16, sumSq, freshSession, init, c10Sess],
   c10_sessions_nonempty_audio ⟨1200⟩ [Ev.stream "s" 16000 [0, 64] 0 DG.err] ("s", c10Sess) (by
     norm_num [run, stepEv, handleStream, fireTimers, dueIds, lookupA, setA, eraseA,
       applyChunk, isActive, toSamples, s16, sq16, sumSq, freshSession, init, c10Sess])⟩

/-- C2 counterexample: after a session is finalized with a provider
response carrying no alternatives, the stored transcript is the empty
string — an entry exists — yet the read endpoint answers not-ready with
empty text, because the code tests the looked-up value for truthiness and
the empty string is falsy. This refutes ready = true for every existing
entry. -/
theorem c2_counterexample :
    lookupA "s" (run ⟨1200⟩ [Ev.stream "s" 16000 [0, 64] 0 DG.err,
        Ev.fin "s" 1 (DG.ok none)] init).transcripts = some "" ∧
      (handleTranscript "s" 2 (run ⟨1200⟩ [Ev.stream "s" 16000 [0, 64] 0 DG.err,
        Ev.fin "s" 1 (DG.ok none)] init)).1 = ("", false) := by
  norm_num [run, stepEv, handleStream, handleFinalize, handleTranscript, finalizeStep,
    fireTimers, dueIds, lookupA, setA, eraseA, applyChunk, isActive, toSamples, s16,
    sq16, sumSq, freshSession, extractText, init]

/-- C2 (amended): the read-transcript operation reports ready = true
exactly when an entry exists for the id after due timers fire and its
stored text is nonempty, in which case the returned text is that stored
text; when no entry exists or the stored text is the empty string it
returns ready = false with empty text. -/
theorem c2_read_transcript_amended (i : String) (now : Nat) (st : ServerState) :
    ((handleTranscript i now st).1.2 = true ↔
      ∃ t, lookupA i (fireTimers now st).transcripts = some t ∧ t ≠ "") ∧
    ((handleTranscript i now st).1.2 = true →
      lookupA i (fireTimers now st).transcripts = some (handleTranscript i now st).1.1) ∧
    ((handleTranscript i now st).1.2 = false → (handleTranscript i now st).1.1 = "") := by
  unfold handleTranscript
  cases hlk : lookupA i (fireTimers now st).transcripts with
  | none =>
      simp only [hlk]
      refine ⟨?_, ?_, ?_⟩
      · constructor
        · intro h
          simp at h
        · rintro ⟨t, ht, -⟩
          exact absurd ht (by simp)
      · intro h
        simp at h
      · intro h
        trivial
  | some t =>
      simp only [hlk]
      by_cases ht : t = ""
      · subst ht
        simp only [if_pos rfl]
        refine ⟨?_, ?_, ?_⟩
        · constructor
          · intro h
            simp at h
          · rintro ⟨u, hu, hne⟩
            injection hu with hu
            exact absurd hu.symm hne
        · intro h
          simp at h
        · intro h
          trivial
      · simp only [if_neg ht]
        refine ⟨?_, ?_, ?_⟩
        · constructor
          · intro h
            exact ⟨t, rfl, ht⟩
          · intro h
            trivial
        · intro h
          trivial
        · intro h
          simp at h

theorem finalizeStep_ok_fields (i : String) (ex : Option String) (now : Nat)
    (st : ServerState) (s : Session)
    (hs : lookupA i st.sessions = some s) (ha : s.audio ≠ []) :
    finalizeStep i (DG.ok ex) now st =
      { st with sessions := eraseA i st.sessions,
                transcripts := setA i (extractText ex) st.transcripts,
                timers := st.timers ++ [(i, now + 5000)] } := by
  unfold finalizeStep
  rw [hs]
  simp only
  rw [if_neg (by simpa [List.isEmpty_iff] using ha)]
  simp only [Nat.add_sub_cancel]

theorem mem_dueIds {i : String} {t : Nat} {ti : List (String × Nat)} :
    i ∈ dueIds t ti ↔ ∃ p ∈ ti, p.1 = i ∧ p.2 ≤ t := by
  unfold dueIds
  simp only [List.mem_map, List.mem_filter, decide_eq_true_eq]
  constructor
  · rintro ⟨p, ⟨hp, hle⟩, hi⟩
    exact ⟨p, hp, hi, hle⟩
  · rintro ⟨p, hp, hi, hle⟩
    exact ⟨p, ⟨hp, hle⟩, hi⟩

theorem lookupA_fireTimers (i : String) (t : Nat) (st : ServerState) :
    lookupA i (fireTimers t st).transcripts =
      if i ∈ dueIds t st.timers then none else lookupA i st.transcripts := by
  unfold fireTimers
  simp only
  have hf := lookupA_filter_pred i (fun k => decide (k ∉ dueIds t st.timers)) st.transcripts
  rw [hf]
  by_cases hm : i ∈ dueIds t st.timers
  · simp [hm]
  · simp [hm]

/-- C4 (amended): a finalize that writes a nonempty transcript at time `T`
into a state with no deletion timer already pending for that id makes the
id readable as ready with exactly that text at any time in [T, T+5000),
and removed — reading as not ready — at or after T+5000. When a prior
pending timer for the same id exists (an overwrite within the TTL of the
previous write), that stale timer still deletes the entry at its original
firing time, so the full fresh window is not guaranteed (see the
counterexample). -/
theorem c4_ttl_amended (i : String) (st : ServerState) (s : Session) (ex : Option String)
    (now : Nat)
    (hs : lookupA i st.sessions = some s) (ha : s.audio ≠ [])
    (hx : extractText ex ≠ "")
    (ht : ∀ p ∈ st.timers, p.1 ≠ i) :
    ∀ t, (t < now + 5000 →
        (handleTranscript i t (finalizeStep i (DG.ok ex) now st)).1 = (extractText ex, true)) ∧
      (now + 5000 ≤ t →
        (handleTranscript i t (finalizeStep i (DG.ok ex) now st)).1 = ("", false)) := by
  intro t
  rw [finalizeStep_ok_fields i ex now st s hs ha]
  set st1 : ServerState :=
    { st with sessions := eraseA i st.sessions,
              transcripts := setA i (extractText ex) st.transcripts,
              timers := st.timers ++ [(i, now + 5000)] } with hst1
  constructor
  · intro hlt
    have hnd : i ∉ dueIds t st1.timers := by
      rw [mem_dueIds]
      rintro ⟨p, hp, hpi, hple⟩
      rw [hst1] at hp
      simp only [List.mem_append, List.mem_singleton] at hp
      rcases hp with hp | hp
      · exact ht p hp hpi
      · rw [hp] at hple
        simp at hple
        omega
    have hlk : lookupA i (fireTimers t st1).transcripts = some (extractText ex) := by
      rw [lookupA_fireTimers, if_neg hnd, hst1]
      exact lookupA_setA_self i (extractText ex) st.transcripts
    simp only [handleTranscript]
    simp [hlk, hx]
  · intro hge
    have hnd : i ∈ dueIds t st1.timers := by
      rw [mem_dueIds]
      refine ⟨(i, now + 5000), ?_, rfl, hge⟩
      rw [hst1]
      simp
    have hlk : lookupA i (fireTimers t st1).transcripts = none := by
      rw [lookupA_fireTimers, if_pos hnd]
    simp only [handleTranscript]
    simp [hlk]

/-- C4 counterexample: the id is finalized at time 0 (timer set for 5000)
and finalized again at time 3000 with text written at 3000; although 5000
lies inside [3000, 8000), the stale timer from the first write fires at
5000 and deletes the overwriting entry, so the read at 5000 answers
not-ready — refuting the claim for writes that overwrite a prior entry
within its TTL. -/
theorem c4_counterexample :
    (handleTranscript "s" 5000 (run ⟨1200⟩
        [Ev.stream "s" 16000 [0, 64] 0 DG.err,
         Ev.fin "s" 0 (DG.ok (some "a")),
         Ev.stream "s" 16000 [0, 64] 3000 DG.err,
         Ev.fin "s" 3000 (DG.ok (some "b"))] init)).1 = ("", false) ∧
      3000 ≤ 5000 ∧ 5000 < 3000 + 5000 := by
  norm_num [run, stepEv, handleStream, handleFinalize, handleTranscript, finalizeStep,
    fireTimers, dueIds, lookupA, setA, eraseA, applyChunk, isActive, toSamples, s16,
    sq16, sumSq, freshSession, extractText, init]

/-- Session with buffered audio for the C4 witness. -/
def c4Sess : Session :=
  { audio := [[1]], lastHeard := 0, startedTalking := false,
    rmsActiveTime := 0, sampleRate := 16000 }

/-- State with one session and an unrelated pending timer. -/
def c4State : ServerState :=
  { sessions := [("s", c4Sess)], transcripts := [], timers := [("x", 700)], tmpOpen := 0 }

theorem c4_ttl_amended_witness :
    (handleTranscript "s" 5009 (finalizeStep "s" (DG.ok (some "hi")) 10 c4State)).1 =
        (extractText (some "hi"), true) ∧
      (handleTranscript "s" 5010 (finalizeStep "s" (DG.ok (some "hi")) 10 c4State)).1 =
        ("", false) :=
  ⟨(c4_ttl_amended "s" c4State c4Sess (some "hi") 10
      (by norm_num [c4State, c4Sess, lookupA]) (by norm_num [c4Sess])
      (by simp [extractText])
      (by intro p hp; norm_num [c4State] at hp; subst hp; decide) 5009).1 (by norm_num),
   (c4_ttl_amended "s" c4State c4Sess (some "hi") 10
      (by norm_num [c4State, c4Sess, lookupA]) (by norm_num [c4Sess])
      (by simp [extractText])
      (by intro p hp; norm_num [c4State] at hp; subst hp; decide) 5010).2 (by norm_num)⟩

end Dubix
